import Mathlib

/-!
Verification development for the books-repo-py repository: a shallow
embedding in Lean 4 of the text normalizer, chapter extractor, layout
manager, speech segment generator, voice comparison orchestrator and the
chapter audio generation loop, together with theorems settling the stated
properties of each component.

Text is modelled as List Char (the repository processes ASCII text; the
regex character classes of the source are modelled by their ASCII
meaning). Regex substitutions of the source are modelled as explicit
scanning functions that reproduce the left-to-right, non-overlapping,
greedy-with-backtracking semantics of re.sub for the concrete patterns
used in the source.
-/

namespace BooksRepo

/-- ASCII whitespace, the ASCII meaning of the regex whitespace class used
throughout book_processor.py (space, tab, newline, carriage return,
vertical tab, form feed). -/
def isWS (c : Char) : Bool :=
  c = ' ' || c = '\t' || c = '\n' || c = '\r' || c = '\x0b' || c = '\x0c'

/-- Auxiliary scanner for the first substitution of BookProcessor._clean_text
(pattern: one or more whitespace characters, replaced by a single space).
The flag records whether the previous character was part of a whitespace
run already replaced. -/
def collapseWSAux : Bool → List Char → List Char
  | _, [] => []
  | inRun, c :: rest =>
    if isWS c then
      if inRun then collapseWSAux true rest
      else ' ' :: collapseWSAux true rest
    else c :: collapseWSAux false rest

/-- First step of BookProcessor._clean_text: every maximal run of
whitespace becomes a single space. -/
def collapseWS (l : List Char) : List Char := collapseWSAux false l

/-- Splits a list after its last newline: returns the suffix strictly
after the last newline character, or none if no newline occurs. -/
def splitAfterLastNL : List Char → Option (List Char)
  | [] => none
  | c :: rest =>
    match splitAfterLastNL rest with
    | some after => some after
    | none => if c = '\n' then some rest else none

/-- Attempts to match the tail of the page-number pattern of
BookProcessor._clean_text (newline, whitespace run, digit run, whitespace
run, newline) starting just after an initial newline. Greedy matching
with backtracking means: the leading whitespace run is maximal, the digit
run must be non-empty, and the final newline of the pattern lands on the
last newline inside the maximal whitespace run that follows the digits.
Returns the remainder of the text after the full match, or none. -/
def matchPageAfter (l : List Char) : Option (List Char) :=
  let r1 := l.dropWhile isWS
  let d := r1.takeWhile Char.isDigit
  let r2 := r1.dropWhile Char.isDigit
  if d.isEmpty then none
  else
    let w2 := r2.takeWhile isWS
    let r3 := r2.dropWhile isWS
    match splitAfterLastNL w2 with
    | some after => some (after ++ r3)
    | none => none

/-- Fuelled scanner for the second substitution of
BookProcessor._clean_text (page-number lines replaced by a single
newline); the fuel is the input length, which suffices because each step
consumes at least one character. -/
def removePageGo : Nat → List Char → List Char
  | 0, l => l
  | _ + 1, [] => []
  | fuel + 1, c :: rest =>
    if c = '\n' then
      match matchPageAfter rest with
      | some rem => '\n' :: removePageGo fuel rem
      | none => c :: removePageGo fuel rest
    else c :: removePageGo fuel rest

/-- Second step of BookProcessor._clean_text: remove lines holding only a
number surrounded by newlines, replacing each match by a single newline. -/
def removePage (l : List Char) : List Char := removePageGo l.length l

/-- Attempts to match the tail of the paragraph-break pattern of
BookProcessor._clean_text (newline, whitespace run, newline) starting
just after an initial newline; greedy matching places the final newline
on the last newline of the maximal whitespace run. -/
def matchParaAfter (l : List Char) : Option (List Char) :=
  let w := l.takeWhile isWS
  let r := l.dropWhile isWS
  match splitAfterLastNL w with
  | some after => some (after ++ r)
  | none => none

/-- Fuelled scanner for the third substitution of
BookProcessor._clean_text (runs of blank lines replaced by a double
newline). -/
def cleanParaGo : Nat → List Char → List Char
  | 0, l => l
  | _ + 1, [] => []
  | fuel + 1, c :: rest =>
    if c = '\n' then
      match matchParaAfter rest with
      | some rem => '\n' :: '\n' :: cleanParaGo fuel rem
      | none => c :: cleanParaGo fuel rest
    else c :: cleanParaGo fuel rest

/-- Third step of BookProcessor._clean_text: clean up paragraph breaks. -/
def cleanPara (l : List Char) : List Char := cleanParaGo l.length l

/-- Python str.strip restricted to ASCII whitespace: drop leading and
trailing whitespace. -/
def stripL (l : List Char) : List Char :=
  ((l.dropWhile isWS).reverse.dropWhile isWS).reverse

/-- BookProcessor._clean_text on character lists: collapse whitespace,
remove page-number lines, clean paragraph breaks, strip. -/
def cleanTextL (l : List Char) : List Char :=
  stripL (cleanPara (removePage (collapseWS l)))

/-- BookProcessor._clean_text, the text normalizer of book_processor.py. -/
def clean_text (s : String) : String := String.mk (cleanTextL s.data)

/-- The normalizer with the page-number-removal substitution deleted,
named after the spec's description of the claimed-equivalent pipeline:
whitespace collapse, then paragraph-break cleanup, then trim. -/
def clean_text_without_page_removal (s : String) : String :=
  String.mk (stripL (cleanPara (collapseWS s.data)))

theorem mem_collapseWSAux_not_nl {c : Char} :
    ∀ (b : Bool) (l : List Char), c ∈ collapseWSAux b l → c ≠ '\n' := by
  intro b l
  induction l generalizing b with
  | nil => intro h; simp [collapseWSAux] at h
  | cons a rest ih =>
    intro h
    by_cases ha : isWS a
    · cases b with
      | true =>
        simp [collapseWSAux, ha] at h
        exact ih true h
      | false =>
        simp [collapseWSAux, ha] at h
        rcases h with h | h
        · subst h; intro heq; cases heq
        · exact ih true h
    · simp [collapseWSAux, ha] at h
      rcases h with h | h
      · subst h
        intro hEq
        subst hEq
        simp [isWS] at ha
      · exact ih false h

theorem removePageGo_id_of_no_nl :
    ∀ (fuel : Nat) (l : List Char), (∀ c ∈ l, c ≠ '\n') → removePageGo fuel l = l := by
  intro fuel
  induction fuel with
  | zero => intro l _; rfl
  | succ n ih =>
    intro l h
    cases l with
    | nil => rfl
    | cons c rest =>
      have hc : c ≠ '\n' := h c (by simp)
      simp only [removePageGo, if_neg hc]
      congr 1
      exact ih rest (fun d hd => h d (by simp [hd]))

/-- C2: the page-number-removal step of the normalizer is a no-op: for
every input string, the full normalization equals the normalization with
the page-number-removal step deleted, because whitespace collapse leaves
no newline for that step's pattern to match. -/
theorem clean_text_page_step_noop (s : String) :
    clean_text s = clean_text_without_page_removal s := by
  unfold clean_text clean_text_without_page_removal cleanTextL
  have hnl : ∀ c ∈ collapseWS s.data, c ≠ '\n' := by
    intro c hc
    exact mem_collapseWSAux_not_nl false s.data hc
  rw [removePage, removePageGo_id_of_no_nl _ _ hnl]

/-- C1 counterexample: the normalizer does not preserve the paragraph
break: on the scenario input it does not return the string with a double
newline claimed by the spec. -/
theorem clean_text_sample_ne_spec :
    clean_text "Hello   world\n\n\n\nBye" ≠ "Hello world\n\nBye" := by
  decide

/-- C1 amended: on the scenario input the normalizer collapses every run
of whitespace, newlines included, to a single space, returning the
single-line string with no paragraph break. -/
theorem clean_text_sample_result :
    clean_text "Hello   world\n\n\n\nBye" = "Hello world Bye" := by
  decide

/-- Zero-padded two-digit decimal formatting, the 02d format of the
filename construction in BookProcessor.extract_epub_content. -/
def pad2 (n : Nat) : List Char :=
  let ds := Nat.toDigits 10 n
  List.replicate (2 - ds.length) '0' ++ ds

/-- Zero-padded three-digit decimal formatting, the 03d format of the
segment filenames in TTSManager.generate_speech. -/
def pad3 (n : Nat) : List Char :=
  let ds := Nat.toDigits 10 n
  List.replicate (3 - ds.length) '0' ++ ds

/-- ASCII meaning of the regex word-character class: letters, digits and
the underscore. -/
def isWordChar (c : Char) : Bool := c.isAlpha || c.isDigit || c == '_'

/-- Python str.lower restricted to ASCII: uppercase letters map to the
corresponding lowercase letters, everything else is unchanged. -/
def toLowerChar (c : Char) : Char :=
  if 'A' ≤ c ∧ c ≤ 'Z' then Char.ofNat (c.toNat + 32) else c

/-- The character class of the second title substitution in
BookProcessor.extract_epub_content: a hyphen or a whitespace character. -/
def isDS (c : Char) : Bool := c == '-' || isWS c

/-- Scanner for the second title substitution (runs of hyphen or
whitespace replaced by a single hyphen); the flag records whether the
previous character was part of a run already replaced. -/
def collapseDSAux : Bool → List Char → List Char
  | _, [] => []
  | inRun, c :: rest =>
    if isDS c then
      if inRun then collapseDSAux true rest
      else '-' :: collapseDSAux true rest
    else c :: collapseDSAux false rest

/-- The filename slug of BookProcessor.extract_epub_content: strip the
characters outside the word, whitespace and hyphen classes, collapse runs
of hyphen or whitespace into a single hyphen, then lowercase. -/
def slugify (title : List Char) : List Char :=
  (collapseDSAux false
    (title.filter fun c => isWordChar c || isWS c || c == '-')).map toLowerChar

/-- The chapter filename of BookProcessor.extract_epub_content: the
chapter number in two zero-padded digits, a hyphen, and the title slug. -/
def mkFilename (n : Nat) (title : List Char) : List Char :=
  pad2 n ++ '-' :: slugify title

/-- Token counter matching Python str.split with no argument: the number
of maximal non-whitespace runs; the flag records whether the previous
character was inside a token. -/
def countTokensAux : Bool → List Char → Nat
  | _, [] => 0
  | inTok, c :: rest =>
    if isWS c then countTokensAux false rest
    else (if inTok then 0 else 1) + countTokensAux true rest

/-- Number of whitespace-separated tokens of a text, the word_count of a
chapter (computed on the raw text before normalization). -/
def countTokens (l : List Char) : Nat := countTokensAux false l

/-- One document unit of an EPUB, as the extractor observes it through
the external parser: whether the item is a document item, the plain text
extracted from its markup, and the text of its first heading-like element
when one exists. -/
structure EpubItem where
  isDocument : Bool
  text : List Char
  headingTitle : Option (List Char)
deriving DecidableEq

/-- A chapter produced by BookProcessor.extract_epub_content. -/
structure Chapter where
  number : Nat
  title : List Char
  filename : List Char
  content : List Char
  word_count : Nat
deriving DecidableEq

/-- The chapter title of BookProcessor.extract_epub_content: the stripped
text of the first heading-like element, with the fallback title built
from the running counter. -/
def mkTitle (it : EpubItem) (n : Nat) : List Char :=
  match it.headingTitle with
  | some t => stripL t
  | none => "Chapter ".data ++ Nat.toDigits 10 n

/-- The chapter record built for one non-skipped document unit in
BookProcessor.extract_epub_content. -/
def mkChapter (n : Nat) (it : EpubItem) : Chapter :=
  let title := mkTitle it n
  { number := n
    title := title
    filename := mkFilename n title
    content := cleanTextL it.text
    word_count := countTokens it.text }

/-- The chapter loop of BookProcessor.extract_epub_content: walk the
items in order, skip non-document items and document items whose text is
whitespace-only without consuming a number, and build one chapter per
remaining item with a strictly increasing counter. -/
def extractChaptersGo (n : Nat) : List EpubItem → List Chapter
  | [] => []
  | it :: rest =>
    if it.isDocument then
      if (stripL it.text).isEmpty then extractChaptersGo n rest
      else mkChapter n it :: extractChaptersGo (n + 1) rest
    else extractChaptersGo n rest

/-- BookProcessor.extract_epub_content restricted to its chapter list
output: the chapter loop started at counter one. -/
def extract_epub_content (items : List EpubItem) : List Chapter :=
  extractChaptersGo 1 items

/-- A unit that yields a chapter: a document item whose extracted text is
not whitespace-only. -/
def isNonEmptyDoc (it : EpubItem) : Bool :=
  it.isDocument && !(stripL it.text).isEmpty

/-- The list of consecutive naturals of the given length starting at the
given value. -/
def natSeq : Nat → Nat → List Nat
  | _, 0 => []
  | s, k + 1 => s :: natSeq (s + 1) k

theorem natSeq_length : ∀ (s k : Nat), (natSeq s k).length = k := by
  intro s k
  induction k generalizing s with
  | zero => rfl
  | succ m ih => simp [natSeq, ih]

theorem extractGo_map_number :
    ∀ (items : List EpubItem) (n : Nat),
      (extractChaptersGo n items).map Chapter.number =
        natSeq n (items.countP isNonEmptyDoc) := by
  intro items
  induction items with
  | nil => intro n; rfl
  | cons it rest ih =>
    intro n
    by_cases hdoc : it.isDocument
    · by_cases hemp : (stripL it.text).isEmpty
      · have hcnt : isNonEmptyDoc it = false := by
          simp [isNonEmptyDoc, hdoc, hemp]
        simp [extractChaptersGo, hdoc, hemp, List.countP_cons, hcnt, ih n]
      · have hcnt : isNonEmptyDoc it = true := by
          simp [isNonEmptyDoc, hdoc, hemp]
        simp [extractChaptersGo, hdoc, hemp, List.countP_cons, hcnt, ih (n + 1),
          natSeq, mkChapter]
    · have hcnt : isNonEmptyDoc it = false := by
        simp [isNonEmptyDoc, hdoc]
      simp [extractChaptersGo, hdoc, List.countP_cons, hcnt, ih n]

/-- C4: for every list of document units with exactly K units that are
document items with non-whitespace text, extraction returns exactly K
chapters whose numbers are one up to K in order; skipped units consume no
number. -/
theorem extract_chapter_numbers (items : List EpubItem) :
    (extract_epub_content items).length = items.countP isNonEmptyDoc ∧
    (extract_epub_content items).map Chapter.number =
      natSeq 1 (items.countP isNonEmptyDoc) := by
  refine ⟨?_, extractGo_map_number items 1⟩
  have h := congrArg List.length (extractGo_map_number items 1)
  simpa [natSeq_length] using h

/-- Slug character class of the claimed filename regex: lowercase ASCII
letters, digits and hyphens. -/
def isClaimSlugChar (c : Char) : Bool := c.isLower || c.isDigit || c == '-'

/-- The claimed filename shape: two digits, a hyphen, then only claim
slug characters. -/
def matchesClaimPattern : List Char → Bool
  | d1 :: d2 :: c :: rest =>
    d1.isDigit && d2.isDigit && c == '-' && rest.all isClaimSlugChar
  | _ => false

/-- Slug character class actually produced by the source: lowercase ASCII
letters, digits, underscores and hyphens. -/
def isAmendedSlugChar (c : Char) : Bool :=
  c.isLower || c.isDigit || c == '_' || c == '-'

/-- The amended filename shape: two digits, a hyphen, then only amended
slug characters. -/
def matchesAmendedPattern : List Char → Bool
  | d1 :: d2 :: c :: rest =>
    d1.isDigit && d2.isDigit && c == '-' && rest.all isAmendedSlugChar
  | _ => false

theorem mem_collapseDSAux {c : Char} :
    ∀ (b : Bool) (l : List Char),
      c ∈ collapseDSAux b l → c = '-' ∨ (c ∈ l ∧ isDS c = false) := by
  intro b l
  induction l generalizing b with
  | nil => intro h; simp [collapseDSAux] at h
  | cons a rest ih =>
    intro h
    by_cases ha : isDS a
    · cases b with
      | true =>
        simp only [collapseDSAux, if_pos ha] at h
        rcases ih true h with h1 | ⟨h1, h2⟩
        · exact Or.inl h1
        · exact Or.inr ⟨List.mem_cons_of_mem a h1, h2⟩
      | false =>
        simp only [collapseDSAux, if_pos ha] at h
        rcases List.mem_cons.mp h with h1 | h1
        · exact Or.inl h1
        · rcases ih true h1 with h2 | ⟨h2, h3⟩
          · exact Or.inl h2
          · exact Or.inr ⟨List.mem_cons_of_mem a h2, h3⟩
    · simp only [collapseDSAux, if_neg ha] at h
      rcases List.mem_cons.mp h with h1 | h1
      · subst h1
        exact Or.inr ⟨List.mem_cons_self c rest, by simpa using ha⟩
      · rcases ih false h1 with h2 | ⟨h2, h3⟩
        · exact Or.inl h2
        · exact Or.inr ⟨List.mem_cons_of_mem a h2, h3⟩

theorem lower_word_is_slug :
    ∀ n, n < 128 → isWordChar (Char.ofNat n) = true →
      isAmendedSlugChar (toLowerChar (Char.ofNat n)) = true := by
  decide

theorem lower_word_is_slug_char {d : Char} (hd : d.toNat < 128)
    (hw : isWordChar d = true) :
    isAmendedSlugChar (toLowerChar d) = true := by
  have h := lower_word_is_slug d.toNat hd
  rw [Char.ofNat_toNat] at h
  exact h hw

theorem slug_chars (title : List Char)
    (hascii : ∀ c ∈ title, c.toNat < 128) :
    ∀ c ∈ slugify title, isAmendedSlugChar c = true := by
  intro c hc
  rcases List.mem_map.mp hc with ⟨d, hd, hcd⟩
  subst hcd
  rcases mem_collapseDSAux false _ hd with h1 | ⟨h1, h2⟩
  · subst h1; decide
  · rcases List.mem_filter.mp h1 with ⟨hmem, hkeep⟩
    have hword : isWordChar d = true := by
      simp only [isDS, Bool.or_eq_false_iff] at h2
      simp only [Bool.or_eq_true] at hkeep
      rcases hkeep with (h | h) | h
      · exact h
      · rw [h2.2] at h; cases h
      · rw [h2.1] at h; cases h
    exact lower_word_is_slug_char (hascii d hmem) hword

theorem pad2_two_digits :
    ∀ n, n < 100 → (pad2 n).length = 2 ∧ (pad2 n).all Char.isDigit = true := by
  decide

theorem list_length_two {α : Type} {l : List α} (h : l.length = 2) :
    ∃ a b, l = [a, b] := by
  match l, h with
  | [a, b], _ => exact ⟨a, b, rfl⟩

/-- Concrete unit list exhibiting a heading title with an underscore. -/
def itemsUnderscore : List EpubItem :=
  [⟨true, "A_B text here".data, some "A_B".data⟩]

/-- C3 counterexample: a chapter extracted from a heading containing an
underscore gets filename 01-a_b, which fails the claimed regex (the
underscore survives the slug), and a chapter number of one hundred yields
three leading digits, which also fails the claimed regex. -/
theorem filename_claim_pattern_fails :
    ((extract_epub_content itemsUnderscore).map fun ch =>
        matchesClaimPattern ch.filename) = [false] ∧
    matchesClaimPattern (mkFilename 100 "Hello".data) = false := by
  decide

/-- C3 amended: for chapter numbers between one and ninety-nine and ASCII
titles, the derived filename is two digits, a hyphen, then only lowercase
letters, digits, underscores and hyphens; and the filename is a
deterministic function of the title and number. -/
theorem mkFilename_matches_amended (n : Nat) (title : List Char)
    (h1 : 1 ≤ n) (h2 : n ≤ 99)
    (hascii : ∀ c ∈ title, c.toNat < 128) :
    matchesAmendedPattern (mkFilename n title) = true ∧
    ∀ n' title', n' = n → title' = title →
      mkFilename n' title' = mkFilename n title := by
  constructor
  · have hlt : n < 100 := Nat.lt_succ_of_le h2
    obtain ⟨hlen, hdig⟩ := pad2_two_digits n hlt
    obtain ⟨a, b, hab⟩ := list_length_two hlen
    rw [hab] at hdig
    simp only [List.all_cons, List.all_nil, Bool.and_eq_true] at hdig
    have hshape : mkFilename n title = a :: b :: '-' :: slugify title := by
      simp [mkFilename, hab]
    rw [hshape]
    simp only [matchesAmendedPattern, hdig.1, hdig.2.1, Bool.and_eq_true,
      beq_self_eq_true, List.all_eq_true, and_true, true_and]
    exact fun c hc => slug_chars title hascii c hc
  · intro n' title' hn ht
    rw [hn, ht]

/-- C3 witness: the amended filename property at chapter number one with
the title Hello World of Books. -/
theorem mkFilename_matches_amended_witness :
    matchesAmendedPattern (mkFilename 1 "Hello World of Books".data) = true :=
  (mkFilename_matches_amended 1 "Hello World of Books".data
    (by decide) (by decide) (by decide)).1

/-- Base name of one individually saved segment in
TTSManager.generate_speech: the given name stem, an underscore, the
zero-padded three-digit segment index, and the wav extension. -/
def segFileBase (pre : List Char) (i : Nat) : List Char :=
  pre ++ '_' :: pad3 i ++ ".wav".data

/-- Base name of the combined file in TTSManager.generate_speech: the
given name stem and the wav extension. -/
def combFileBase (pre : List Char) : List Char := pre ++ ".wav".data

/-- Path join: the output directory, a slash, and the base name. -/
def joinPath (dir base : List Char) : List Char := dir ++ '/' :: base

/-- TTSManager.generate_speech after the engine call, with the engine's
materialized segment stream as input: per segment, when saving without
combining, write the indexed segment file and record its path; after the
loop, when saving with combining and at least one segment exists, write
the single concatenated file and record its path. The first component
lists the file writes (path and samples) in write order; the second is
the returned list of paths. -/
def generate_speech (outDir : List Char) (segs : List (List Int))
    (pre : List Char) (save_files combine_segments : Bool) :
    List (List Char × List Int) × List (List Char) :=
  let perSeg :=
    if save_files && !combine_segments then
      segs.enum.map fun p => (joinPath outDir (segFileBase pre p.1), p.2)
    else []
  let perPaths := perSeg.map Prod.fst
  if save_files && combine_segments && !segs.isEmpty then
    (perSeg ++ [(joinPath outDir (combFileBase pre), segs.flatten)],
     perPaths ++ [joinPath outDir (combFileBase pre)])
  else (perSeg, perPaths)

theorem generate_speech_no_combine (outDir : List Char) (segs : List (List Int))
    (pre : List Char) :
    generate_speech outDir segs pre true false =
      (segs.enum.map fun p => (joinPath outDir (segFileBase pre p.1), p.2),
       (segs.enum.map fun p => (joinPath outDir (segFileBase pre p.1), p.2)).map
         Prod.fst) := by
  rfl

theorem enumFrom_map_index {α β : Type} (f : Nat → β) :
    ∀ (l : List α) (n : Nat),
      (List.enumFrom n l).map (fun p => f p.1) = (natSeq n l.length).map f := by
  intro l
  induction l with
  | nil => intro n; rfl
  | cons a rest ih => intro n; simp [List.enumFrom, natSeq, ih]

theorem enumFrom_map_value {α : Type} :
    ∀ (l : List α) (n : Nat), (List.enumFrom n l).map Prod.snd = l := by
  intro l
  induction l with
  | nil => intro n; rfl
  | cons a rest ih => intro n; simp [List.enumFrom, ih]

/-- C5: saving without combining writes and returns exactly one file per
emitted segment, named with the zero-padded sequential indices starting
at zero, in emission order, carrying the segment samples; saving with
combining on a non-empty segment stream writes and returns exactly the
single combined file holding the concatenation of all segments in
emission order; an empty segment stream writes nothing and returns the
empty list under either flag. -/
theorem generate_speech_files (outDir : List Char) (segs : List (List Int))
    (pre : List Char) :
    ((generate_speech outDir segs pre true false).2 =
        (natSeq 0 segs.length).map (fun i => joinPath outDir (segFileBase pre i)) ∧
      (generate_speech outDir segs pre true false).1.map Prod.fst =
        (natSeq 0 segs.length).map (fun i => joinPath outDir (segFileBase pre i)) ∧
      (generate_speech outDir segs pre true false).1.map Prod.snd = segs) ∧
    (segs ≠ [] →
      generate_speech outDir segs pre true true =
        ([(joinPath outDir (combFileBase pre), segs.flatten)],
         [joinPath outDir (combFileBase pre)])) ∧
    (generate_speech outDir [] pre true false = ([], []) ∧
     generate_speech outDir [] pre true true = ([], [])) := by
  have hnc := generate_speech_no_combine outDir segs pre
  refine ⟨⟨?_, ?_, ?_⟩, ?_, rfl, rfl⟩
  · rw [hnc]
    show (segs.enum.map fun p => (joinPath outDir (segFileBase pre p.1), p.2)).map
        Prod.fst = _
    rw [List.map_map]
    exact enumFrom_map_index (fun i => joinPath outDir (segFileBase pre i)) segs 0
  · rw [hnc]
    show (segs.enum.map fun p => (joinPath outDir (segFileBase pre p.1), p.2)).map
        Prod.fst = _
    rw [List.map_map]
    exact enumFrom_map_index (fun i => joinPath outDir (segFileBase pre i)) segs 0
  · rw [hnc]
    show (segs.enum.map fun p => (joinPath outDir (segFileBase pre p.1), p.2)).map
        Prod.snd = _
    rw [List.map_map]
    exact enumFrom_map_value segs 0
  · intro h
    cases segs with
    | nil => exact absurd rfl h
    | cons s rest => simp [generate_speech]

/-- C5 witness: combining two segments under the stem ch01 yields the
single combined file with the concatenated samples. -/
theorem generate_speech_files_witness :
    generate_speech "out".data [[1, 2], [3]] "ch01".data true true =
      ([(joinPath "out".data (combFileBase "ch01".data), [1, 2, 3])],
       [joinPath "out".data (combFileBase "ch01".data)]) :=
  (generate_speech_files "out".data [[1, 2], [3]] "ch01".data).2.1 (by decide)

/-- Observable outcome of the external engine and filesystem for one
voice in voice_playground.compare: whether the generate_speech call
raises, the list of paths it returns otherwise, the wall-clock time the
generation took, the size reported by stat for the produced file, whether
reading the file back succeeds, and the sample count and sample rate read
back. -/
structure VoiceOutcome where
  raises : Bool
  files : List (List Char)
  elapsed : ℚ
  sizeMB : ℚ
  readOk : Bool
  samples : Nat
  samplerate : Nat
deriving DecidableEq

/-- One entry of the results list built by voice_playground.compare. -/
structure CompResult where
  voice : List Char
  file : List Char
  size_mb : ℚ
  duration_min : ℚ
  generation_time : ℚ
  success : Bool
deriving DecidableEq

/-- The known voice identifiers of voice_playground.py. -/
def AVAILABLE_VOICES : List (List Char) :=
  ["af_heart".data, "af_sarah".data, "af_bella".data]

/-- The body of the per-voice loop of voice_playground.compare: a raised
engine error is caught and recorded with the Error marker and zeroed
size, duration and generation time; an empty returned list is recorded
with the Failed marker, zeroed size and duration but the measured
generation time; a non-empty returned list is recorded as a success with
the first file, its stat size, the read-back duration in minutes when the
read succeeds and zero when it fails, and the measured generation time. -/
def processVoice (v : List Char) (o : VoiceOutcome) : CompResult :=
  if o.raises then
    { voice := v, file := "Error".data, size_mb := 0, duration_min := 0,
      generation_time := 0, success := false }
  else
    match o.files with
    | [] =>
      { voice := v, file := "Failed".data, size_mb := 0, duration_min := 0,
        generation_time := o.elapsed, success := false }
    | f :: _ =>
      { voice := v, file := f, size_mb := o.sizeMB,
        duration_min :=
          if o.readOk then ((o.samples : ℚ) / (o.samplerate : ℚ)) / 60 else 0,
        generation_time := o.elapsed, success := true }

/-- voice_playground.compare restricted to its core: validate the
requested voices against the known set up front (none yields no run),
then record one entry per requested voice in request order. -/
def runComparison (voices : List (List Char))
    (env : List Char → VoiceOutcome) : Option (List CompResult) :=
  if voices.all (fun v => AVAILABLE_VOICES.contains v) then
    some (voices.map fun v => processVoice v (env v))
  else none

theorem processVoice_voice (v : List Char) (o : VoiceOutcome) :
    (processVoice v o).voice = v := by
  unfold processVoice
  split
  · rfl
  · split <;> rfl

theorem runComparison_eq_of_valid (voices : List (List Char))
    (env : List Char → VoiceOutcome)
    (hvalid : voices.all (fun v => AVAILABLE_VOICES.contains v) = true) :
    runComparison voices env =
      some (voices.map fun v => processVoice v (env v)) := by
  unfold runComparison
  exact if_pos hvalid

/-- C6: a comparison run over validated requested voices records exactly
one result per voice, in request order, whatever the per-voice outcomes
are; in particular no per-voice failure prevents the entries of the
subsequent voices. -/
theorem compare_one_result_per_voice (voices : List (List Char))
    (env : List Char → VoiceOutcome)
    (hvalid : voices.all (fun v => AVAILABLE_VOICES.contains v) = true) :
    ∃ rs, runComparison voices env = some rs ∧
      rs.length = voices.length ∧ rs.map CompResult.voice = voices := by
  refine ⟨voices.map fun v => processVoice v (env v), ?_, ?_, ?_⟩
  · exact runComparison_eq_of_valid voices env hvalid
  · simp
  · rw [List.map_map]
    have hcomp : (CompResult.voice ∘ fun v => processVoice v (env v)) = id := by
      funext w
      exact processVoice_voice w (env w)
    rw [hcomp, List.map_id]

/-- C6 witness: two validated voices with an environment that raises for
every voice still give two entries in request order. -/
theorem compare_one_result_per_voice_witness :
    ∃ rs, runComparison ["af_heart".data, "af_sarah".data]
        (fun _ => ⟨true, [], 5, 0, true, 0, 0⟩) = some rs ∧
      rs.length = 2 ∧
      rs.map CompResult.voice = ["af_heart".data, "af_sarah".data] :=
  compare_one_result_per_voice ["af_heart".data, "af_sarah".data]
    (fun _ => ⟨true, [], 5, 0, true, 0, 0⟩) (by decide)

/-- Environment in which the engine raises after five seconds of work. -/
def envRaisingAt5 : List Char → VoiceOutcome :=
  fun _ =>
    { raises := true, files := [], elapsed := 5, sizeMB := 0,
      readOk := true, samples := 0, samplerate := 24000 }

/-- C7 counterexample: when generation for a voice raises after five
elapsed seconds, the recorded entry carries generation time zero, not the
elapsed time: the wall-clock time up to the failure is replaced by zero
in the raised-exception case. -/
theorem comparison_zeroes_time_on_raise :
    (envRaisingAt5 "af_heart".data).elapsed = 5 ∧
    runComparison ["af_heart".data] envRaisingAt5 =
      some [{ voice := "af_heart".data, file := "Error".data, size_mb := 0,
              duration_min := 0, generation_time := 0, success := false }] := by
  constructor
  · rfl
  · rfl

/-- C7 amended: a failure entry always has zeroed size and duration; when
the failure is an empty returned result the measured generation time is
preserved in the entry, but when the failure is a raised engine error the
entry's generation time is recorded as zero. -/
theorem comparison_failure_entries (voices : List (List Char))
    (env : List Char → VoiceOutcome) (v : List Char)
    (hv : v ∈ voices)
    (hvalid : voices.all (fun v => AVAILABLE_VOICES.contains v) = true) :
    (∃ rs, runComparison voices env = some rs ∧ processVoice v (env v) ∈ rs) ∧
    ((env v).raises = false → (env v).files = [] →
      processVoice v (env v) =
        { voice := v, file := "Failed".data, size_mb := 0, duration_min := 0,
          generation_time := (env v).elapsed, success := false }) ∧
    ((env v).raises = true →
      processVoice v (env v) =
        { voice := v, file := "Error".data, size_mb := 0, duration_min := 0,
          generation_time := 0, success := false }) := by
  refine ⟨⟨voices.map fun w => processVoice w (env w),
      runComparison_eq_of_valid voices env hvalid,
      List.mem_map_of_mem _ hv⟩, ?_, ?_⟩
  · intro h1 h2
    simp [processVoice, h1, h2]
  · intro h1
    simp [processVoice, h1]

/-- C7 witness: an empty-result failure after seven elapsed seconds is
recorded with the Failed marker, zeroed size and duration, and the
preserved generation time of seven. -/
theorem comparison_failure_entries_witness :
    processVoice "af_heart".data
        ((fun _ => (⟨false, [], 7, 0, true, 0, 0⟩ : VoiceOutcome)) "af_heart".data) =
      { voice := "af_heart".data, file := "Failed".data, size_mb := 0,
        duration_min := 0, generation_time := 7, success := false } :=
  (comparison_failure_entries ["af_heart".data]
    (fun _ => (⟨false, [], 7, 0, true, 0, 0⟩ : VoiceOutcome)) "af_heart".data
    (by decide) (by decide)).2.1 (by decide) (by decide)

/-- C10: when generation for a voice returns a produced file but the
read-back of that file fails, the comparison run still records an entry
for the voice with the success flag set and a duration of zero minutes. -/
theorem comparison_success_zero_duration (voices : List (List Char))
    (env : List Char → VoiceOutcome) (v : List Char)
    (hv : v ∈ voices)
    (hvalid : voices.all (fun v => AVAILABLE_VOICES.contains v) = true)
    (h1 : (env v).raises = false) (h2 : (env v).files ≠ [])
    (h3 : (env v).readOk = false) :
    ∃ rs, runComparison voices env = some rs ∧ processVoice v (env v) ∈ rs ∧
      (processVoice v (env v)).success = true ∧
      (processVoice v (env v)).duration_min = 0 := by
  refine ⟨voices.map fun w => processVoice w (env w),
    runComparison_eq_of_valid voices env hvalid,
    List.mem_map_of_mem _ hv, ?_, ?_⟩
  · cases hf : (env v).files with
    | nil => exact absurd hf h2
    | cons f fs => simp [processVoice, h1, hf]
  · cases hf : (env v).files with
    | nil => exact absurd hf h2
    | cons f fs => simp [processVoice, h1, hf, h3]

/-- Environment in which generation succeeds but reading the produced
file back fails. -/
def envReadFail : List Char → VoiceOutcome :=
  fun _ =>
    { raises := false, files := ["x.wav".data], elapsed := 3, sizeMB := 2,
      readOk := false, samples := 100, samplerate := 24000 }

/-- C10 witness: a produced file whose read-back fails yields a recorded
success entry with duration zero. -/
theorem comparison_success_zero_duration_witness :
    ∃ rs, runComparison ["af_heart".data] envReadFail = some rs ∧
      processVoice "af_heart".data (envReadFail "af_heart".data) ∈ rs ∧
      (processVoice "af_heart".data (envReadFail "af_heart".data)).success = true ∧
      (processVoice "af_heart".data (envReadFail "af_heart".data)).duration_min = 0 :=
  comparison_success_zero_duration ["af_heart".data] envReadFail "af_heart".data
    (by decide) (by decide) (by decide) (by decide) (by decide)

/-- Outcome of one chapter's generate_speech call in the generate_audio
command of book_processor.py: either the call raises mid-stream, or it
returns a list of produced file paths (the empty list when the engine
emitted zero segments). -/
inductive ChapterOutcome where
  | raises : ChapterOutcome
  | produces : List (List Char) → ChapterOutcome
deriving DecidableEq

/-- The per-chapter report printed by the generate_audio loop: the
chapter number and whether a file was generated for it. -/
structure ChapterReport where
  chapter : Nat
  success : Bool
deriving DecidableEq

/-- The chapter loop of the generate_audio command, over the validated
requested chapter numbers: each chapter's generate_speech call either
raises, which aborts the loop (no try-except surrounds the call, the
exception propagates and the remaining chapters are never processed), or
returns a file list, reported as success when non-empty and failure when
empty, after which the loop continues. The first component collects the
reports of the processed chapters in order; the second records the
chapter whose call raised, if any. -/
def generate_audio_loop (env : Nat → ChapterOutcome) :
    List Nat → List ChapterReport × Option Nat
  | [] => ([], none)
  | c :: rest =>
    match env c with
    | ChapterOutcome.raises => ([], some c)
    | ChapterOutcome.produces fs =>
      let r := generate_audio_loop env rest
      ({ chapter := c, success := !fs.isEmpty } :: r.1, r.2)

/-- Environment in which chapter one's synthesis raises mid-stream and
chapter two's synthesis would succeed. -/
def envAbort : Nat → ChapterOutcome :=
  fun c =>
    if c = 1 then ChapterOutcome.raises
    else ChapterOutcome.produces ["02-x.wav".data]

/-- C8 counterexample: requesting chapters one and two when chapter one's
synthesis raises mid-stream yields no report at all — the failure is not
reported for chapter one and chapter two is never processed, so a raised
error does abort the remaining requested chapters. -/
theorem generate_audio_raise_aborts :
    generate_audio_loop envAbort [1, 2] = ([], some 1) := by
  decide

/-- C8 amended: when no requested chapter's synthesis raises, every
requested chapter is processed and reported in order, the loop never
aborts, and a chapter whose synthesis produces zero files is reported as
a failure while processing continues; a raised error, by contrast,
propagates and aborts the remaining chapters. -/
theorem generate_audio_continues (env : Nat → ChapterOutcome)
    (reqs : List Nat)
    (h : ∀ c ∈ reqs, env c ≠ ChapterOutcome.raises) :
    (generate_audio_loop env reqs).1.map ChapterReport.chapter = reqs ∧
    (generate_audio_loop env reqs).2 = none ∧
    ∀ c ∈ reqs, env c = ChapterOutcome.produces [] →
      ({ chapter := c, success := false } : ChapterReport) ∈
        (generate_audio_loop env reqs).1 := by
  induction reqs with
  | nil => exact ⟨rfl, rfl, by intro c hc; cases hc⟩
  | cons a rest ih =>
    have ha : env a ≠ ChapterOutcome.raises := h a (List.mem_cons_self a rest)
    cases henv : env a with
    | raises => exact absurd henv ha
    | produces fs =>
      obtain ⟨ih1, ih2, ih3⟩ := ih fun c hc => h c (List.mem_cons_of_mem a hc)
      have hloop : generate_audio_loop env (a :: rest) =
          ({ chapter := a, success := !fs.isEmpty } ::
             (generate_audio_loop env rest).1,
           (generate_audio_loop env rest).2) := by
        simp [generate_audio_loop, henv]
      refine ⟨?_, ?_, ?_⟩
      · rw [hloop]
        simp [ih1]
      · rw [hloop]
        exact ih2
      · intro c hc hprod
        rcases List.mem_cons.mp hc with h1 | h1
        · subst h1
          have hfs : fs = [] := by
            rw [henv] at hprod
            simpa using hprod
          rw [hloop, hfs]
          exact List.mem_cons_self _ _
        · rw [hloop]
          exact List.mem_cons_of_mem _ (ih3 c h1 hprod)

/-- Environment in which chapter one's synthesis emits zero segments and
chapter two's synthesis succeeds. -/
def envZeroSeg : Nat → ChapterOutcome :=
  fun c =>
    if c = 1 then ChapterOutcome.produces []
    else ChapterOutcome.produces ["02-x.wav".data]

/-- C8 witness: with a zero-segment failure on chapter one, both
requested chapters are reported in order and the chapter-one report is a
recorded failure. -/
theorem generate_audio_continues_witness :
    (generate_audio_loop envZeroSeg [1, 2]).1.map ChapterReport.chapter = [1, 2] ∧
    ({ chapter := 1, success := false } : ChapterReport) ∈
      (generate_audio_loop envZeroSeg [1, 2]).1 := by
  have h := generate_audio_continues envZeroSeg [1, 2] (by decide)
  exact ⟨h.1, h.2.2 1 (by decide) (by decide)⟩

/-- The book metadata record assembled by
BookProcessor.extract_epub_content and completed with the slug by the
convert command before saving. -/
structure BookMetadata where
  title : List Char
  author : List Char
  language : List Char
  publisher : List Char
  description : List Char
  slug : List Char
deriving DecidableEq

/-- One table-of-contents entry, the projection of a chapter written by
BookProcessor.save_metadata: number, title, filename and word count,
omitting the content body. -/
structure ChapterSummary where
  number : Nat
  title : List Char
  filename : List Char
  word_count : Nat
deriving DecidableEq

/-- The table-of-contents projection of a chapter in
BookProcessor.save_metadata. -/
def summaryOf (ch : Chapter) : ChapterSummary :=
  { number := ch.number, title := ch.title, filename := ch.filename,
    word_count := ch.word_count }

/-- A structured value as persisted through the external YAML layer:
strings, numbers, ordered lists, and key-value records. The external
serializer is modelled as faithful (dumping a value and loading the file
back yields an equal value), so persistence is modelled at the value
level. -/
inductive YVal where
  | str : List Char → YVal
  | num : Nat → YVal
  | arr : List YVal → YVal
  | obj : List (List Char × YVal) → YVal

/-- Key lookup in a persisted key-value record. -/
def ylookup (k : List Char) : List (List Char × YVal) → Option YVal
  | [] => none
  | (k', v) :: rest => if k' = k then some v else ylookup k rest

/-- Reads a string value. -/
def asStr : Option YVal → Option (List Char)
  | some (YVal.str s) => some s
  | _ => none

/-- Reads a numeric value. -/
def asNum : Option YVal → Option Nat
  | some (YVal.num n) => some n
  | _ => none

/-- The metadata record written to metadata.yml by
BookProcessor.save_metadata. -/
def encodeMetadata (m : BookMetadata) : YVal :=
  YVal.obj
    [("title".data, YVal.str m.title),
     ("author".data, YVal.str m.author),
     ("language".data, YVal.str m.language),
     ("publisher".data, YVal.str m.publisher),
     ("description".data, YVal.str m.description),
     ("slug".data, YVal.str m.slug)]

/-- One chapter entry of the toc.yml record written by
BookProcessor.save_metadata. -/
def encodeSummary (s : ChapterSummary) : YVal :=
  YVal.obj
    [("number".data, YVal.num s.number),
     ("title".data, YVal.str s.title),
     ("filename".data, YVal.str s.filename),
     ("word_count".data, YVal.num s.word_count)]

/-- The toc.yml record written by BookProcessor.save_metadata: the
ordered chapter summaries under the chapters key. -/
def encodeToc (chs : List Chapter) : YVal :=
  YVal.obj
    [("chapters".data, YVal.arr (chs.map fun ch => encodeSummary (summaryOf ch)))]

/-- BookProcessor.save_metadata: the pair of persisted records, the
metadata record and the table-of-contents record. -/
def save_metadata (m : BookMetadata) (chs : List Chapter) : YVal × YVal :=
  (encodeMetadata m, encodeToc chs)

/-- Read-back of the metadata record, as the list_chapters command reads
metadata.yml and projects its fields. -/
def load_metadata (y : YVal) : Option BookMetadata :=
  match y with
  | YVal.obj kvs => do
    let t ← asStr (ylookup "title".data kvs)
    let a ← asStr (ylookup "author".data kvs)
    let lg ← asStr (ylookup "language".data kvs)
    let p ← asStr (ylookup "publisher".data kvs)
    let d ← asStr (ylookup "description".data kvs)
    let s ← asStr (ylookup "slug".data kvs)
    pure { title := t, author := a, language := lg, publisher := p,
           description := d, slug := s }
  | _ => none

/-- Read-back of one chapter summary from the toc record, as the
list_chapters command projects number, title, filename and word_count
from each entry. -/
def decodeSummary (y : YVal) : Option ChapterSummary :=
  match y with
  | YVal.obj kvs => do
    let n ← asNum (ylookup "number".data kvs)
    let t ← asStr (ylookup "title".data kvs)
    let f ← asStr (ylookup "filename".data kvs)
    let w ← asNum (ylookup "word_count".data kvs)
    pure { number := n, title := t, filename := f, word_count := w }
  | _ => none

/-- Read-back of an ordered list of chapter summaries. -/
def decodeSummaries : List YVal → Option (List ChapterSummary)
  | [] => some []
  | y :: rest => do
    let s ← decodeSummary y
    let rest' ← decodeSummaries rest
    pure (s :: rest')

/-- Read-back of the table-of-contents record, as the list_chapters
command reads toc.yml and walks the chapters list in order. -/
def load_toc (y : YVal) : Option (List ChapterSummary) :=
  match y with
  | YVal.obj kvs =>
    match ylookup "chapters".data kvs with
    | some (YVal.arr l) => decodeSummaries l
    | _ => none
  | _ => none

theorem decodeSummary_encode (s : ChapterSummary) :
    decodeSummary (encodeSummary s) = some s := rfl

theorem decodeSummaries_encode :
    ∀ l : List ChapterSummary, decodeSummaries (l.map encodeSummary) = some l := by
  intro l
  induction l with
  | nil => rfl
  | cons s rest ih =>
    simp [decodeSummaries, decodeSummary_encode, ih]

/-- C9: saving a metadata record and a chapter list with save_metadata
and reading the persisted records back yields the original metadata
fields and the original per-chapter summaries, field for field and in
the original chapter order. -/
theorem save_load_roundtrip (m : BookMetadata) (chs : List Chapter) :
    load_metadata (save_metadata m chs).1 = some m ∧
    load_toc (save_metadata m chs).2 = some (chs.map summaryOf) := by
  constructor
  · rfl
  · show decodeSummaries (chs.map fun ch => encodeSummary (summaryOf ch)) =
      some (chs.map summaryOf)
    rw [show (chs.map fun ch => encodeSummary (summaryOf ch)) =
        (chs.map summaryOf).map encodeSummary by rw [List.map_map]; rfl]
    exact decodeSummaries_encode (chs.map summaryOf)

end BooksRepo
